import Mathlib

/-!
A shallow embedding of the core logic of a Discord bot for Valorant match
statistics (src/index.js): the TTL cache, the token-bucket rate gate, the
Riot API request retry loop, Riot ID parsing, routing (region/shard)
resolution, match-list slicing and recent-match aggregation.  Machine time
is modelled in milliseconds as Nat.  JavaScript truthiness of strings and
of optional values is modelled explicitly, and a thrown exception is
modelled as an Option/absent result.
-/

set_option maxHeartbeats 1000000

namespace ValorantBot

/-- JS `a || b` for strings, where the empty string is falsy. -/
def jsOrS (a b : String) : String := if a = "" then b else a

/-- JS `a || b` where `a` may be null/undefined (modelled as `none`) or a
string (falsy when empty). -/
def jsOr (a : Option String) (b : String) : String :=
  match a with
  | none => b
  | some s => jsOrS s b

/-! ## TTL cache (src/index.js lines 65-75) -/

/-- One stored cache entry, `\x7b value, expires \x7d` (line 73). -/
structure CacheEntry (α : Type) where
  value : α
  expires : Nat
deriving DecidableEq

/-- The cache map keyed by string (`TTLCache.map`, line 66), modelled as a
function from keys to optional entries. -/
def CacheMap (α : Type) : Type := String → Option (CacheEntry α)

/-- `TTLCache.set` (line 73): store the value with expiry `now + ttlMs`,
overwriting any existing entry for that key. -/
def cacheSet {α : Type} (c : CacheMap α) (key : String) (value : α)
    (ttlMs now : Nat) : CacheMap α :=
  fun kk => if kk = key then some ⟨value, now + ttlMs⟩ else c kk

/-- `TTLCache.get` (lines 67-72): an absent key gives `none`; an entry whose
expiry lies strictly in the past is deleted and gives `none`; otherwise the
stored value is returned.  The result is the read outcome paired with the
cache state after the read. -/
def cacheGet {α : Type} (c : CacheMap α) (key : String) (now : Nat) :
    Option α × CacheMap α :=
  match c key with
  | none => (none, c)
  | some v =>
      if v.expires < now then (none, fun kk => if kk = key then none else c kk)
      else (some v.value, c)

/-- Claim C2: for every key k, value v and duration ttl, a get of k after a
set of (k, v, ttl) at time `now` returns v at any time up to the expiry
instant `now + ttl` (set overwrites any existing entry for k), and a get
after the expiry instant returns the absent result and removes the entry. -/
theorem ttl_cache_get_set {α : Type} (c : CacheMap α) (k : String) (v : α)
    (ttl now t : Nat) :
    cacheSet c k v ttl now k = some ⟨v, now + ttl⟩ ∧
    (t ≤ now + ttl →
      cacheGet (cacheSet c k v ttl now) k t = (some v, cacheSet c k v ttl now)) ∧
    (now + ttl < t →
      (cacheGet (cacheSet c k v ttl now) k t).1 = none ∧
      (cacheGet (cacheSet c k v ttl now) k t).2 k = none) := by
  have hk : cacheSet c k v ttl now k = some ⟨v, now + ttl⟩ := by
    unfold cacheSet
    simp
  refine ⟨hk, ?_, ?_⟩
  · intro ht
    have hlt : ¬ ((⟨v, now + ttl⟩ : CacheEntry α).expires < t) := by
      simp only [not_lt]
      exact ht
    simp only [cacheGet, hk]
    rw [if_neg hlt]
  · intro ht
    have hlt : (⟨v, now + ttl⟩ : CacheEntry α).expires < t := ht
    simp only [cacheGet, hk]
    rw [if_pos hlt]
    constructor
    · rfl
    · simp

/-- Witness for C2 at a concrete key, value, ttl and read times. -/
theorem ttl_cache_get_set_witness :
    cacheSet (fun _ => (none : Option (CacheEntry Nat))) "k" 7 10 0 "k" =
      some ⟨7, 0 + 10⟩ ∧
    (cacheGet (cacheSet (fun _ => (none : Option (CacheEntry Nat))) "k" 7 10 0)
        "k" 5).1 = some 7 ∧
    (cacheGet (cacheSet (fun _ => (none : Option (CacheEntry Nat))) "k" 7 10 0)
        "k" 11).1 = none ∧
    (cacheGet (cacheSet (fun _ => (none : Option (CacheEntry Nat))) "k" 7 10 0)
        "k" 11).2 "k" = none := by
  refine ⟨(ttl_cache_get_set (fun _ => none) "k" 7 10 0 5).1, ?_, ?_, ?_⟩
  · rw [(ttl_cache_get_set (fun _ => none) "k" 7 10 0 5).2.1 (by omega)]
  · exact ((ttl_cache_get_set (fun _ => none) "k" 7 10 0 11).2.2 (by omega)).1
  · exact ((ttl_cache_get_set (fun _ => none) "k" 7 10 0 11).2.2 (by omega)).2

/-! ## Token-bucket rate gate (src/index.js lines 77-88) -/

/-- Rate-gate constants (line 78): 20 requests per 10 s window, 500 ms
polling backoff (line 86). -/
def capacity : Nat := 20

/-- Length of a refill window in milliseconds (line 78). -/
def refillMs : Nat := 10000

/-- Sleep between polls when no token is available (line 86). -/
def backoffMs : Nat := 500

/-- Gate state: remaining `tokens` and the `lastRefill` timestamp (line 79). -/
structure GateState where
  tokens : Nat
  lastRefill : Nat
deriving DecidableEq

/-- The refill step at the head of `takeToken` (lines 81-85): if strictly
more than `refillMs` elapsed since the last refill, reset to full capacity
and restart the epoch clock at `now`. -/
def refillCheck (s : GateState) (now : Nat) : GateState :=
  if refillMs < now - s.lastRefill then ⟨capacity, now⟩ else s

lemma refillCheck_tokens_eq_zero {s : GateState} {now : Nat}
    (h : (refillCheck s now).tokens = 0) :
    refillCheck s now = s ∧ now ≤ s.lastRefill + refillMs := by
  unfold refillCheck at h ⊢
  split at h
  · simp [capacity] at h
  · rename_i hc
    rw [if_neg hc]
    refine ⟨rfl, ?_⟩
    omega

/-- `takeToken` (lines 80-88): refill if the interval elapsed; if no token
remains, suspend for `backoffMs` and retry the whole check; otherwise
consume one token and return immediately.  The result is the gate state
after the acquisition together with the time at which the call returns. -/
def takeToken (s : GateState) (now : Nat) : GateState × Nat :=
  if h : (refillCheck s now).tokens = 0 then
    takeToken (refillCheck s now) (now + backoffMs)
  else
    (⟨(refillCheck s now).tokens - 1, (refillCheck s now).lastRefill⟩, now)
termination_by s.lastRefill + refillMs + 1 - now
decreasing_by
  obtain ⟨he, hle⟩ := refillCheck_tokens_eq_zero h
  rw [he]
  have hb : 0 < backoffMs := by decide
  omega

lemma takeToken_immediate {s : GateState} {now : Nat}
    (h : (refillCheck s now).tokens ≠ 0) :
    takeToken s now =
      (⟨(refillCheck s now).tokens - 1, (refillCheck s now).lastRefill⟩, now) := by
  rw [takeToken.eq_def, dif_neg h]

lemma refillCheck_no (s : GateState) (now : Nat)
    (h : now ≤ s.lastRefill + refillMs) : refillCheck s now = s := by
  unfold refillCheck
  have hc : ¬ (refillMs < now - s.lastRefill) := by omega
  rw [if_neg hc]

/-- Run a sequence of acquisitions at the given call times, threading the
gate state; returns the final state together with each completion time. -/
def acquireSeq (s : GateState) : List Nat → GateState × List Nat
  | [] => (s, [])
  | t :: ts =>
      let r := takeToken s t
      let rest := acquireSeq r.1 ts
      (rest.1, r.2 :: rest.2)

lemma acquireSeq_immediate : ∀ (ts : List Nat) (n t0 : Nat), ts.length ≤ n →
    (∀ t ∈ ts, t ≤ t0 + refillMs) →
    acquireSeq ⟨n, t0⟩ ts = (⟨n - ts.length, t0⟩, ts)
  | [], n, t0, _, _ => by simp [acquireSeq]
  | t :: ts, n, t0, hlen, hts => by
      have hlen' : ts.length + 1 ≤ n := by simpa using hlen
      have ht : t ≤ t0 + refillMs := hts t (List.mem_cons_self t ts)
      have hrc : refillCheck ⟨n, t0⟩ t = ⟨n, t0⟩ := refillCheck_no _ _ ht
      have hn : (refillCheck ⟨n, t0⟩ t).tokens ≠ 0 := by
        rw [hrc]
        intro h0
        simp only at h0
        omega
      have hstep := takeToken_immediate hn
      rw [hrc] at hstep
      have hrest := acquireSeq_immediate ts (n - 1) t0 (by omega)
        (fun x hx => hts x (List.mem_cons_of_mem _ hx))
      have harith : n - 1 - ts.length = n - (t :: ts).length := by
        simp only [List.length_cons]
        omega
      simp only [acquireSeq, hstep, hrest, harith]

lemma takeToken_zero (t0 now : Nat) :
    t0 + refillMs < (takeToken ⟨0, t0⟩ now).2 ∧
    ∃ j : Nat, (takeToken ⟨0, t0⟩ now).2 = now + backoffMs * j := by
  by_cases hr : refillMs < now - t0
  · have hrc : refillCheck ⟨0, t0⟩ now = ⟨capacity, now⟩ := by
      simp only [refillCheck]
      rw [if_pos hr]
    have hn : (refillCheck ⟨0, t0⟩ now).tokens ≠ 0 := by
      rw [hrc]
      simp [capacity]
    rw [takeToken_immediate hn]
    constructor
    · show t0 + refillMs < now
      omega
    · exact ⟨0, by simp⟩
  · have hle : now ≤ t0 + refillMs := by
      simp only at hr
      omega
    have hrc : refillCheck ⟨0, t0⟩ now = ⟨0, t0⟩ := refillCheck_no _ _ hle
    have h0 : (refillCheck ⟨0, t0⟩ now).tokens = 0 := by rw [hrc]
    rw [takeToken.eq_def, dif_pos h0, hrc]
    obtain ⟨h1, j, h2⟩ := takeToken_zero t0 (now + backoffMs)
    refine ⟨h1, j + 1, ?_⟩
    rw [h2]
    ring
termination_by t0 + refillMs + 1 - now
decreasing_by
  have hb : 0 < backoffMs := by decide
  omega

lemma takeToken_completes (s : GateState) (now : Nat) :
    now ≤ (takeToken s now).2 := by
  by_cases h : (refillCheck s now).tokens = 0
  · rw [takeToken.eq_def, dif_pos h]
    have hrec := takeToken_completes (refillCheck s now) (now + backoffMs)
    have hb : 0 < backoffMs := by decide
    omega
  · rw [takeToken_immediate h]
termination_by s.lastRefill + refillMs + 1 - now
decreasing_by
  obtain ⟨he, hle⟩ := refillCheck_tokens_eq_zero h
  rw [he]
  have hb : 0 < backoffMs := by decide
  omega

/-- Claim C1: starting from a full bucket refilled at `t0`, any sequence of
at most `capacity` acquisitions at times within the refill window completes
immediately (each completion time equals its call time, so no suspension
occurs); once `capacity` acquisitions have been made in the window, a
further acquisition at any time `now` completes only strictly after the
refill boundary `t0 + refillMs`, suspending in `backoffMs` steps; and no
acquisition is ever rejected: every call returns, at a time no earlier than
it was made. -/
theorem rate_gate_window (t0 now : Nat) (ts : List Nat)
    (hlen : ts.length ≤ capacity)
    (hts : ∀ t ∈ ts, t ≤ t0 + refillMs) :
    (acquireSeq ⟨capacity, t0⟩ ts).2 = ts ∧
    (ts.length = capacity →
      t0 + refillMs < (takeToken (acquireSeq ⟨capacity, t0⟩ ts).1 now).2 ∧
      ∃ j : Nat,
        (takeToken (acquireSeq ⟨capacity, t0⟩ ts).1 now).2 =
          now + backoffMs * j) ∧
    (∀ (s : GateState) (m : Nat), m ≤ (takeToken s m).2) := by
  have hseq := acquireSeq_immediate ts capacity t0 hlen hts
  refine ⟨by rw [hseq], ?_, fun s m => takeToken_completes s m⟩
  intro hfull
  have hstate : (acquireSeq ⟨capacity, t0⟩ ts).1 = ⟨0, t0⟩ := by
    rw [hseq]
    have h0 : capacity - ts.length = 0 := by omega
    simp [h0]
  rw [hstate]
  exact takeToken_zero t0 now

/-- Witness for C1: twenty acquisitions at time 100 inside the window
starting at 0 all complete immediately, and the twenty-first (made at time
200) is pushed past the refill boundary. -/
theorem rate_gate_window_witness :
    (acquireSeq ⟨capacity, 0⟩ (List.replicate 20 100)).2 =
      List.replicate 20 100 ∧
    ((List.replicate 20 100).length = capacity →
      0 + refillMs <
        (takeToken (acquireSeq ⟨capacity, 0⟩ (List.replicate 20 100)).1 200).2 ∧
      ∃ j : Nat,
        (takeToken (acquireSeq ⟨capacity, 0⟩ (List.replicate 20 100)).1 200).2 =
          200 + backoffMs * j) ∧
    (∀ (s : GateState) (m : Nat), m ≤ (takeToken s m).2) :=
  rate_gate_window 0 200 (List.replicate 20 100) (by decide) (by decide)

/-! ## Riot API request with rate-limit retry (src/index.js lines 98-109) -/

/-- An HTTP response as consumed by `riotRequest`: its status code, the
parsed `Retry-After` header when present (in seconds), and the response
body text. -/
structure HttpResponse where
  status : Nat
  retryAfterHeader : Option Nat
  body : String

/-- `res.ok` of fetch: the status lies in the 200-299 range. -/
def respOk (r : HttpResponse) : Bool := 200 ≤ r.status && r.status < 300

/-- Outcome of a `riotRequest` call: the parsed body on success, or the
thrown error carrying the status and a body excerpt (line 107). -/
inductive FetchResult where
  | success (body : String)
  | failure (status : Nat) (excerpt : String)
deriving DecidableEq

/-- Observable trace of one `riotRequest` call: its outcome, how many HTTP
attempts were made, and the list of sleep durations (ms) taken between
attempts. -/
structure ReqTrace where
  result : FetchResult
  attempts : Nat
  sleeps : List Nat
deriving DecidableEq

/-- `riotRequest` (lines 98-109), with the i-th HTTP attempt answered by
`fetchAt (attempt + i)`.  On a 429 status with retries left it sleeps for
the `Retry-After` hint (default 1) times 1000 ms and retries with the
budget decremented; otherwise a non-ok status throws a failure carrying
status and body, and an ok status succeeds with the body. -/
def riotRequestAux (fetchAt : Nat → HttpResponse) (attempt retry : Nat) :
    ReqTrace :=
  if h : (fetchAt attempt).status = 429 ∧ 0 < retry then
    let t := riotRequestAux fetchAt (attempt + 1) (retry - 1)
    ⟨t.result, t.attempts + 1,
      ((fetchAt attempt).retryAfterHeader.getD 1) * 1000 :: t.sleeps⟩
  else if respOk (fetchAt attempt) then
    ⟨.success (fetchAt attempt).body, 1, []⟩
  else
    ⟨.failure (fetchAt attempt).status (fetchAt attempt).body, 1, []⟩
termination_by retry
decreasing_by omega

/-- A full `riotRequest url` call: initial attempt with the default retry
budget of 2 (line 98). -/
def riotRequest (fetchAt : Nat → HttpResponse) : ReqTrace :=
  riotRequestAux fetchAt 0 2

lemma riotRequestAux_pos (fetchAt : Nat → HttpResponse) (attempt retry : Nat)
    (h429 : (fetchAt attempt).status = 429) (hr : 0 < retry) :
    riotRequestAux fetchAt attempt retry =
      ⟨(riotRequestAux fetchAt (attempt + 1) (retry - 1)).result,
       (riotRequestAux fetchAt (attempt + 1) (retry - 1)).attempts + 1,
       ((fetchAt attempt).retryAfterHeader.getD 1) * 1000 ::
         (riotRequestAux fetchAt (attempt + 1) (retry - 1)).sleeps⟩ := by
  rw [riotRequestAux.eq_def, dif_pos ⟨h429, hr⟩]

lemma riotRequestAux_stop (fetchAt : Nat → HttpResponse) (attempt retry : Nat)
    (h : ¬ ((fetchAt attempt).status = 429 ∧ 0 < retry)) :
    riotRequestAux fetchAt attempt retry =
      (if respOk (fetchAt attempt) then
        ⟨.success (fetchAt attempt).body, 1, []⟩
      else
        ⟨.failure (fetchAt attempt).status (fetchAt attempt).body, 1, []⟩) := by
  rw [riotRequestAux.eq_def, dif_neg h]

lemma riotRequestAux_only429 (fetchAt : Nat → HttpResponse) :
    ∀ retry attempt i : Nat,
      i + 1 < (riotRequestAux fetchAt attempt retry).attempts →
      (fetchAt (attempt + i)).status = 429 := by
  intro retry
  induction retry with
  | zero =>
      intro attempt i hi
      rw [riotRequestAux_stop fetchAt attempt 0 (by simp)] at hi
      split at hi
      · simp at hi
      · simp at hi
  | succ r ih =>
      intro attempt i hi
      by_cases h429 : (fetchAt attempt).status = 429
      · rw [riotRequestAux_pos fetchAt attempt (r + 1) h429 (Nat.succ_pos r)]
          at hi
        simp only at hi
        cases i with
        | zero => simpa using h429
        | succ j =>
            have hj : j + 1 < (riotRequestAux fetchAt (attempt + 1) r).attempts := by
              simpa using hi
            have := ih (attempt + 1) j hj
            have harith : attempt + 1 + j = attempt + (j + 1) := by omega
            rwa [harith] at this
      · rw [riotRequestAux_stop fetchAt attempt (r + 1)
          (fun hand => h429 hand.1)] at hi
        split at hi
        · simp at hi
        · simp at hi

/-- Claim C3: a non-429 non-success response surfaces immediately as a
failure carrying its status and body, with a single attempt and no sleep;
a non-429 success succeeds with a single attempt; when every attempt
answers 429, exactly two retries happen (three attempts), each preceded by
a sleep of the retry-after hint (1 second when the header is absent) times
1000 ms, before a fatal failure with status 429 is surfaced; and any
attempt beyond the first can only follow a 429 response. -/
theorem riot_retry_policy (fetchAt : Nat → HttpResponse) :
    ((fetchAt 0).status ≠ 429 → respOk (fetchAt 0) = false →
      riotRequest fetchAt =
        ⟨.failure (fetchAt 0).status (fetchAt 0).body, 1, []⟩) ∧
    ((fetchAt 0).status ≠ 429 → respOk (fetchAt 0) = true →
      riotRequest fetchAt = ⟨.success (fetchAt 0).body, 1, []⟩) ∧
    (((fetchAt 0).status = 429 ∧ (fetchAt 1).status = 429 ∧
        (fetchAt 2).status = 429) →
      riotRequest fetchAt =
        ⟨.failure 429 (fetchAt 2).body, 3,
         [((fetchAt 0).retryAfterHeader.getD 1) * 1000,
          ((fetchAt 1).retryAfterHeader.getD 1) * 1000]⟩) ∧
    (∀ i : Nat, i + 1 < (riotRequest fetchAt).attempts →
      (fetchAt i).status = 429) := by
  refine ⟨?_, ?_, ?_, ?_⟩
  · intro h429 hok
    unfold riotRequest
    rw [riotRequestAux_stop fetchAt 0 2 (fun hand => h429 hand.1), if_neg]
    rw [hok]
    simp
  · intro h429 hok
    unfold riotRequest
    rw [riotRequestAux_stop fetchAt 0 2 (fun hand => h429 hand.1), if_pos]
    rw [hok]
  · rintro ⟨h0, h1, h2⟩
    unfold riotRequest
    rw [riotRequestAux_pos fetchAt 0 2 h0 (by omega)]
    have e1 : (0 : Nat) + 1 = 1 := rfl
    rw [e1]
    rw [riotRequestAux_pos fetchAt 1 (2 - 1) h1 (by omega)]
    have e2 : (1 : Nat) + 1 = 2 := rfl
    rw [e2]
    have hstop : riotRequestAux fetchAt 2 (2 - 1 - 1) =
        ⟨.failure (fetchAt 2).status (fetchAt 2).body, 1, []⟩ := by
      rw [riotRequestAux_stop fetchAt 2 (2 - 1 - 1) (by omega), if_neg]
      simp [respOk, h2]
    rw [hstop, h2]
  · intro i hi
    have := riotRequestAux_only429 fetchAt 2 0 i hi
    simpa using this

/-- A response source that always answers 429 with increasing retry-after
hints, used as the C3 witness input. -/
def fetchAllLimited : Nat → HttpResponse :=
  fun i => ⟨429, some (i + 1), "rate limited"⟩

/-- Witness for C3: on an always-429 source the call makes three attempts,
sleeps 1000 ms then 2000 ms, and surfaces a 429 failure. -/
theorem riot_retry_policy_witness :
    riotRequest fetchAllLimited =
      ⟨.failure 429 (fetchAllLimited 2).body, 3,
       [((fetchAllLimited 0).retryAfterHeader.getD 1) * 1000,
        ((fetchAllLimited 1).retryAfterHeader.getD 1) * 1000]⟩ :=
  (riot_retry_policy fetchAllLimited).2.2.1 ⟨rfl, rfl, rfl⟩

/-! ## Riot ID parsing (src/index.js lines 111-118) -/

/-- Split a character list at the LAST occurrence of the separator, giving
the parts before and after it.  This models `input.lastIndexOf(x23)`,
`input.slice(0, idx)` and `input.slice(idx + 1)` of lines 112-115; `none`
models index -1 (no separator). -/
def splitAtLastHash : List Char → Option (List Char × List Char)
  | [] => none
  | c :: rest =>
      match splitAtLastHash rest with
      | some (b, a) => some (c :: b, a)
      | none => if c = '#' then some ([], rest) else none

/-- JS `String.prototype.trim`: drop whitespace from both ends. -/
def trimChars (l : List Char) : List Char :=
  ((l.dropWhile Char.isWhitespace).reverse.dropWhile Char.isWhitespace).reverse

/-- `parseRiotId` (lines 111-118) on the character list of the input;
`none` models the thrown format error (no separator, or an empty name or
tag half after trimming). -/
def parseRiotId (input : List Char) : Option (List Char × List Char) :=
  match splitAtLastHash input with
  | none => none
  | some (b, a) =>
      let gameName := trimChars b
      let tagLine := trimChars a
      if gameName = [] ∨ tagLine = [] then none else some (gameName, tagLine)

lemma splitAtLastHash_none : ∀ l : List Char, '#' ∉ l → splitAtLastHash l = none
  | [], _ => rfl
  | c :: rest, h => by
      have hr : '#' ∉ rest := fun hm => h (List.mem_cons_of_mem _ hm)
      have hc : ¬ (c = '#') := fun hc => h (hc ▸ List.mem_cons_self c rest)
      simp [splitAtLastHash, splitAtLastHash_none rest hr, hc]

lemma splitAtLastHash_append (b : List Char) {a : List Char} (ha : '#' ∉ a) :
    splitAtLastHash (b ++ '#' :: a) = some (b, a) := by
  induction b with
  | nil => simp [splitAtLastHash, splitAtLastHash_none a ha]
  | cons c cs ih => simp [splitAtLastHash, ih]

/-- Claim C5: the parser splits at the last separator and trims both
halves; it fails on any input without a separator, and on any input whose
name half or tag half is empty after trimming; on the concrete examples it
behaves as the spec lists. -/
theorem parse_riot_id_spec (b a : List Char) (ha : '#' ∉ a) :
    parseRiotId (b ++ '#' :: a) =
      (if trimChars b = [] ∨ trimChars a = [] then none
       else some (trimChars b, trimChars a)) ∧
    (∀ input : List Char, '#' ∉ input → parseRiotId input = none) ∧
    parseRiotId "Nick#TAG".data = some ("Nick".data, "TAG".data) ∧
    parseRiotId "NoSeparator".data = none ∧
    parseRiotId "#TAG".data = none ∧
    parseRiotId "Nick#".data = none := by
  refine ⟨?_, ?_, by decide, by decide, by decide, by decide⟩
  · simp only [parseRiotId, splitAtLastHash_append b ha]
  · intro input h
    simp [parseRiotId, splitAtLastHash_none input h]

/-- Witness for C5 at the concrete split "Nick" / "TAG". -/
theorem parse_riot_id_spec_witness :
    parseRiotId ("Nick".data ++ '#' :: "TAG".data) =
      (if trimChars "Nick".data = [] ∨ trimChars "TAG".data = [] then none
       else some (trimChars "Nick".data, trimChars "TAG".data)) ∧
    (∀ input : List Char, '#' ∉ input → parseRiotId input = none) ∧
    parseRiotId "Nick#TAG".data = some ("Nick".data, "TAG".data) ∧
    parseRiotId "NoSeparator".data = none ∧
    parseRiotId "#TAG".data = none ∧
    parseRiotId "Nick#".data = none :=
  parse_riot_id_spec "Nick".data "TAG".data (by decide)

/-! ## Stored links and routing resolution (src/index.js lines 62, 328-348) -/

/-- A stored link record (line 62): game name, tag, optional shard and
region overrides, and the last-linked timestamp. -/
structure Link where
  gameName : String
  tagLine : String
  shard : Option String
  region : Option String
  lastLinkedAt : Nat
deriving DecidableEq

/-- `effectiveShard` (line 329): the shard of the link when present and
nonempty, else the process default `VAL_SHARD` (passed as `valShard`). -/
def effectiveShard (valShard : String) (link : Option Link) : String :=
  jsOr (link.bind Link.shard) valShard

/-- `effectiveRegion` (line 330): the region of the link when present and
nonempty, else the process default `RIOT_REGION` (passed as `riotRegion`). -/
def effectiveRegion (riotRegion : String) (link : Option Link) : String :=
  jsOr (link.bind Link.region) riotRegion

/-- The shard the `/link` handler resolves (line 344, also 348):
`shard || effectiveShard()` — note that `effectiveShard` is called with no
link argument there. -/
def linkCmdShard (valShard : String) (shardOpt : Option String) : String :=
  jsOr shardOpt (effectiveShard valShard none)

/-- The region the `/link` handler resolves (lines 343-344, 348):
`region || effectiveRegion()`. -/
def linkCmdRegion (riotRegion : String) (regionOpt : Option String) : String :=
  jsOr regionOpt (effectiveRegion riotRegion none)

/-- The `/link` handler update of the stored links (line 344): the record
for the calling user is overwritten with the resolved account name and tag,
the resolved shard and region, and the current time. -/
def linkHandler (valShard riotRegion : String) (links : String → Option Link)
    (uid gName tLine : String) (shardOpt regionOpt : Option String)
    (now : Nat) : String → Option Link :=
  fun u =>
    if u = uid then
      some ⟨gName, tLine, some (linkCmdShard valShard shardOpt),
        some (linkCmdRegion riotRegion regionOpt), now⟩
    else links u

/-- A stored-links table in which user1 has shard "na" and region "asia". -/
def linksWithNa : String → Option Link :=
  fun u =>
    if u = "user1" then some ⟨"Nick", "TAG", some "na", some "asia", 0⟩
    else none

/-- Counterexample to claim C4 as stated: in the `/link` command invocation
(which resolves a routing pair), with the explicit override absent and a
stored Link carrying shard "na" present, the resolved and stored shard is
the process default "eu", not the stored value "na" — the stored Link does
not win. -/
theorem routing_link_cmd_ignores_stored_link :
    (linksWithNa "user1").bind Link.shard = some "na" ∧
    ((linkHandler "eu" "europe" linksWithNa "user1" "Nick" "TAG" none none 5)
        "user1").bind Link.shard = some "eu" ∧
    ("eu" : String) ≠ "na" := by
  refine ⟨by decide, by decide, by decide⟩

/-- Claim C4 (amended): an explicit nonempty per-command override wins in
the `/link` command; with the override absent there, the process default is
used and the stored Link is not consulted; in the commands that resolve
routing from a stored Link (`profile`, `lastmatch`, `agent-stats`,
`map-stats` via `effectiveShard` and `effectiveRegion`), a present nonempty
stored value wins over the process default and an absent stored value falls
back to the default; the resolved values are never empty when the defaults
are nonempty. -/
theorem routing_precedence_amended (valShard riotRegion ov : String) (l : Link) :
    (ov ≠ "" → linkCmdShard valShard (some ov) = ov ∧
      linkCmdRegion riotRegion (some ov) = ov) ∧
    (linkCmdShard valShard none = valShard ∧
      linkCmdRegion riotRegion none = riotRegion) ∧
    (∀ sh : String, sh ≠ "" → l.shard = some sh →
      effectiveShard valShard (some l) = sh) ∧
    (l.shard = none → effectiveShard valShard (some l) = valShard) ∧
    (∀ rg : String, rg ≠ "" → l.region = some rg →
      effectiveRegion riotRegion (some l) = rg) ∧
    (l.region = none → effectiveRegion riotRegion (some l) = riotRegion) ∧
    (valShard ≠ "" → effectiveShard valShard (some l) ≠ "") ∧
    (riotRegion ≠ "" → effectiveRegion riotRegion (some l) ≠ "") := by
  refine ⟨?_, ?_, ?_, ?_, ?_, ?_, ?_, ?_⟩
  · intro hov
    constructor
    · simp [linkCmdShard, jsOr, jsOrS, hov]
    · simp [linkCmdRegion, jsOr, jsOrS, hov]
  · constructor
    · simp [linkCmdShard, effectiveShard, jsOr, jsOrS]
    · simp [linkCmdRegion, effectiveRegion, jsOr, jsOrS]
  · intro sh hsh hl
    simp [effectiveShard, jsOr, jsOrS, hl, hsh]
  · intro hl
    simp [effectiveShard, jsOr, jsOrS, hl]
  · intro rg hrg hl
    simp [effectiveRegion, jsOr, jsOrS, hl, hrg]
  · intro hl
    simp [effectiveRegion, jsOr, jsOrS, hl]
  · intro hv
    show jsOr l.shard valShard ≠ ""
    cases hsh : l.shard with
    | none => simpa [jsOr] using hv
    | some s =>
        by_cases hs : s = ""
        · simpa [jsOr, jsOrS, hs] using hv
        · simp [jsOr, jsOrS, hs]
  · intro hv
    show jsOr l.region riotRegion ≠ ""
    cases hrg : l.region with
    | none => simpa [jsOr] using hv
    | some s =>
        by_cases hs : s = ""
        · simpa [jsOr, jsOrS, hs] using hv
        · simp [jsOr, jsOrS, hs]

/-- Witness for the amended C4 at concrete defaults, override and link. -/
theorem routing_precedence_amended_witness :
    (effectiveShard "eu" (some ⟨"N", "T", some "na", some "asia", 3⟩) = "na") ∧
    (effectiveRegion "europe" (some ⟨"N", "T", some "na", some "asia", 3⟩) =
      "asia") ∧
    (linkCmdShard "eu" (some "kr") = "kr") ∧
    (linkCmdShard "eu" none = "eu") := by
  refine ⟨?_, ?_, ?_, ?_⟩
  · exact (routing_precedence_amended "eu" "europe" "kr"
      ⟨"N", "T", some "na", some "asia", 3⟩).2.2.1 "na" (by decide) rfl
  · exact (routing_precedence_amended "eu" "europe" "kr"
      ⟨"N", "T", some "na", some "asia", 3⟩).2.2.2.2.1 "asia" (by decide) rfl
  · exact ((routing_precedence_amended "eu" "europe" "kr"
      ⟨"N", "T", some "na", some "asia", 3⟩).1 (by decide)).1
  · exact (routing_precedence_amended "eu" "europe" "kr"
      ⟨"N", "T", some "na", some "asia", 3⟩).2.1.1

/-! ## Profile command resolution (src/index.js lines 384-411) -/

/-- The two variants of the not-linked nudge message produced by
`ensureLink` (line 387): one for the caller themself, one for another
user. -/
inductive NotLinkedVariant where
  | selfTarget
  | otherTarget
deriving DecidableEq

/-- What the profile handler does before (or instead of) its first remote
call. -/
inductive ProfileOutcome where
  | errorReply
  | notLinked (variant : NotLinkedVariant)
  | fetchAccount (gameName tagLine region shard : String)
deriving DecidableEq

/-- The `profile` handler (lines 394-411) up to its first remote account
call, with `ensureLink` (lines 384-392) inlined.  With an inline Riot ID a
parse failure is caught and reported (`errorReply`); otherwise a remote
account lookup is issued.  Without an inline ID, a missing stored link for
the target produces the not-linked reply, in the self or other variant
depending on whether the target is the caller, and no remote call is
made. -/
def profileResolve (valShard riotRegion : String)
    (links : String → Option Link) (callerId : String)
    (userOpt : Option String) (inlineId : Option String) : ProfileOutcome :=
  let targetId := userOpt.getD callerId
  match inlineId with
  | some s =>
      match parseRiotId s.data with
      | none => .errorReply
      | some (g, t) =>
          .fetchAccount (String.mk g) (String.mk t)
            (jsOrS (effectiveRegion riotRegion (links targetId))
              (effectiveRegion riotRegion none))
            (jsOrS (effectiveShard valShard (links targetId))
              (effectiveShard valShard none))
  | none =>
      match links targetId with
      | none =>
          .notLinked (if targetId = callerId then .selfTarget else .otherTarget)
      | some l =>
          .fetchAccount l.gameName l.tagLine
            (effectiveRegion riotRegion (some l))
            (effectiveShard valShard (some l))

/-- Claim C8: a caller with no stored link who invokes the profile command
for themself without an inline Riot ID gets the not-linked reply in its
self variant (which is distinguishable from the other-user variant), and no
remote account fetch is issued; the handler function is total, so no
exception escapes it. -/
theorem profile_not_linked_self (valShard riotRegion : String)
    (links : String → Option Link) (callerId : String)
    (h : links callerId = none) :
    profileResolve valShard riotRegion links callerId none none =
      .notLinked .selfTarget ∧
    (∀ g t r s : String,
      profileResolve valShard riotRegion links callerId none none ≠
        .fetchAccount g t r s) ∧
    NotLinkedVariant.selfTarget ≠ NotLinkedVariant.otherTarget := by
  have h1 : profileResolve valShard riotRegion links callerId none none =
      .notLinked .selfTarget := by
    simp [profileResolve, h]
  refine ⟨h1, ?_, by simp⟩
  intro g t r s
  rw [h1]
  simp

/-- The empty stored-links table. -/
def noLinks : String → Option Link := fun _ => none

/-- Witness for C8 at a concrete caller with no stored link. -/
theorem profile_not_linked_self_witness :
    profileResolve "eu" "europe" noLinks "caller1" none none =
      ProfileOutcome.notLinked NotLinkedVariant.selfTarget ∧
    (∀ g t r s : String,
      profileResolve "eu" "europe" noLinks "caller1" none none ≠
        ProfileOutcome.fetchAccount g t r s) ∧
    NotLinkedVariant.selfTarget ≠ NotLinkedVariant.otherTarget :=
  profile_not_linked_self "eu" "europe" noLinks "caller1" rfl

/-! ## Match-list lookup slicing (src/index.js lines 126-134) -/

/-- One entry of the matchlist `history` array. -/
structure HistoryEntry where
  matchId : String
deriving DecidableEq

/-- The remote matchlist response; the `history` field may be missing. -/
structure MatchlistResponse where
  history : Option (List HistoryEntry)
deriving DecidableEq

/-- Cache-hit path of `getRecentMatchIdsByPuuid` (line 130):
`cached.history.slice(start, start + count).map(h => h.matchId)`.  When the
cached response has no `history` field, the member access on undefined
throws, modelled as `none`. -/
def matchIdsOnHit (data : MatchlistResponse) (start count : Nat) :
    Option (List String) :=
  match data.history with
  | none => none
  | some h => some (((h.drop start).take count).map HistoryEntry.matchId)

/-- Fresh-fetch path (line 133):
`(data?.history || []).slice(start, start + count).map(h => h.matchId)`. -/
def matchIdsOnMiss (data : MatchlistResponse) (start count : Nat) :
    List String :=
  (((data.history.getD []).drop start).take count).map HistoryEntry.matchId

/-- Claim C9: on a response whose `history` field is missing, the fresh
fetch returns the empty list while the cache-hit recomputation throws
(returns no list), so the two paths are NOT equal for every response; they
do agree on every response that carries a `history` list. -/
theorem matchlist_hit_miss_divergence :
    matchIdsOnMiss ⟨none⟩ 0 5 = [] ∧
    matchIdsOnHit ⟨none⟩ 0 5 = none ∧
    (∀ (h : List HistoryEntry) (start count : Nat),
      matchIdsOnHit ⟨some h⟩ start count =
        some (matchIdsOnMiss ⟨some h⟩ start count)) :=
  ⟨rfl, rfl, fun _ _ _ => rfl⟩

/-! ## Recent-match aggregation (src/index.js lines 173-190) -/

/-- Per-player stat counters; any of them may be missing in the raw
record. -/
structure PlayerStats where
  kills : Option Nat
  deaths : Option Nat
  assists : Option Nat
deriving DecidableEq

/-- One per-player entry of a match record. -/
structure Player where
  puuid : String
  stats : Option PlayerStats
  teamId : Option String
  characterId : Option String
deriving DecidableEq

/-- One per-team entry of a match record. -/
structure Team where
  teamId : Option String
  won : Option Bool
deriving DecidableEq

/-- The match metadata consumed by the aggregator. -/
structure MatchInfo where
  gameMode : Option String
  mapId : Option String
deriving DecidableEq

/-- A raw match record; every consumed field may be missing. -/
structure MatchRecord where
  matchInfo : Option MatchInfo
  players : Option (List Player)
  teams : Option (List Team)
deriving DecidableEq

/-- `m.matchInfo?.gameMode || x27unknownx27` (line 176). -/
def modeOf (m : MatchRecord) : String :=
  jsOr (m.matchInfo.bind MatchInfo.gameMode) "unknown"

/-- `modeFilter && mode !== modeFilter` (line 177): skip the record when a
truthy filter is set and the mode differs. -/
def modeSkip (modeFilter : Option String) (mode : String) : Bool :=
  match modeFilter with
  | none => false
  | some f => f != "" && mode != f

/-- `m.players?.find(p => p.puuid === puuid)` (line 178). -/
def playerOf (puuid : String) (m : MatchRecord) : Option Player :=
  (m.players.getD []).find? (fun q => q.puuid == puuid)

/-- The win flag the aggregator reads for the tracked player (line 180):
`m.teams?.find(t => t.teamId === team)?.won`; `none` when the player, the
team entry or the flag itself is missing. -/
def wonOf (puuid : String) (m : MatchRecord) : Option Bool :=
  (playerOf puuid m).bind fun p =>
    ((m.teams.getD []).find? (fun t => t.teamId == p.teamId)).bind Team.won

/-- `(player.characterId || x27unknownx27).toLowerCase()` (line 183). -/
def agentKeyOf (p : Player) : String := (jsOr p.characterId "unknown").toLower

/-- `(m.matchInfo?.mapId?.split(x27/x27)?.pop() || x27mapx27).toLowerCase()`
(line 184). -/
def mapKeyOf (m : MatchRecord) : String :=
  (jsOr ((m.matchInfo.bind MatchInfo.mapId).map
    (fun s => (s.splitOn "/").getLastD "")) "map").toLower

/-- JS `Map.set(key, (Map.get(key) || 0) + 1)` on an insertion-ordered
association list (lines 185-186). -/
def bump : List (String × Nat) → String → List (String × Nat)
  | [], key => [(key, 1)]
  | (k, v) :: rest, key =>
      if k = key then (k, v + 1) :: rest else (k, v) :: bump rest key

/-- Sum of the tally values of an association list. -/
def sumVals : List (String × Nat) → Nat
  | [] => 0
  | (_, v) :: rest => v + sumVals rest

lemma sumVals_bump (l : List (String × Nat)) (key : String) :
    sumVals (bump l key) = sumVals l + 1 := by
  induction l with
  | nil => simp [bump, sumVals]
  | cons kv rest ih =>
      obtain ⟨k, v⟩ := kv
      by_cases h : k = key
      · simp only [bump, if_pos h, sumVals]
        omega
      · simp only [bump, if_neg h, sumVals, ih]
        omega

/-- The loop accumulator of `aggregateRecentStats` (line 174). -/
structure Agg where
  k : Nat
  d : Nat
  a : Nat
  wins : Nat
  total : Nat
  perAgent : List (String × Nat)
  perMap : List (String × Nat)
deriving DecidableEq

/-- The accumulator before the loop: all counters zero, empty tallies. -/
def initAgg : Agg := ⟨0, 0, 0, 0, 0, [], []⟩

/-- One iteration of the aggregation loop (lines 175-187): skip on mode
filter mismatch, skip when the player entry or its stats are missing;
otherwise count a win only when the team win flag resolves to true, add
the stat counters (missing ones as 0), count the game, and bump the
per-agent and per-map tallies. -/
def aggStep (puuid : String) (modeFilter : Option String) (acc : Agg)
    (m : MatchRecord) : Agg :=
  if modeSkip modeFilter (modeOf m) then acc
  else
    match playerOf puuid m with
    | none => acc
    | some p =>
        match p.stats with
        | none => acc
        | some st =>
            let won :=
              (List.find? (fun t => t.teamId == p.teamId) (m.teams.getD [])).bind
                Team.won
            { k := acc.k + st.kills.getD 0
              d := acc.d + st.deaths.getD 0
              a := acc.a + st.assists.getD 0
              wins := if won = some true then acc.wins + 1 else acc.wins
              total := acc.total + 1
              perAgent := bump acc.perAgent (agentKeyOf p)
              perMap := bump acc.perMap (mapKeyOf m) }

/-- Round an exact ratio to two decimal places (`toFixed(2)`, line 188). -/
def round2 (q : ℚ) : ℚ := (round (100 * q) : ℤ) / 100

/-- The reported kill/death ratio: a finite two-decimal value or the
infinity sentinel string of line 188. -/
inductive KDisplay where
  | inf
  | val (q : ℚ)
deriving DecidableEq

/-- The summary object returned at line 189. -/
structure Summary where
  k : Nat
  d : Nat
  a : Nat
  wins : Nat
  total : Nat
  kd : KDisplay
  perAgent : List (String × Nat)
  perMap : List (String × Nat)

/-- `aggregateRecentStats` (lines 173-190): fold the loop over the match
list, then compute the kill/death ratio, with the infinity sentinel when
deaths is zero. -/
def aggregateRecentStats (puuid : String) (ms : List MatchRecord)
    (modeFilter : Option String) : Summary :=
  let acc := ms.foldl (aggStep puuid modeFilter) initAgg
  ⟨acc.k, acc.d, acc.a, acc.wins, acc.total,
   if 0 < acc.d then KDisplay.val (round2 ((acc.k : ℚ) / (acc.d : ℚ)))
   else KDisplay.inf,
   acc.perAgent, acc.perMap⟩

/-- A record contributes to the counters iff it passes the mode filter and
its player entry with stats is found. -/
def countsMatch (puuid : String) (modeFilter : Option String)
    (m : MatchRecord) : Bool :=
  !modeSkip modeFilter (modeOf m) &&
    ((playerOf puuid m).bind Player.stats).isSome

/-- A record contributes to the win counter iff it contributes to the
counters and its win flag resolves to true. -/
def winsPred (puuid : String) (modeFilter : Option String)
    (m : MatchRecord) : Bool :=
  countsMatch puuid modeFilter m && (wonOf puuid m == some true)

lemma aggStep_total (puuid : String) (f : Option String) (acc : Agg)
    (m : MatchRecord) :
    (aggStep puuid f acc m).total =
      acc.total + (if countsMatch puuid f m then 1 else 0) := by
  unfold aggStep countsMatch
  by_cases hskip : modeSkip f (modeOf m)
  · simp [hskip]
  · cases hp : playerOf puuid m with
    | none => simp [hskip, hp]
    | some p =>
        cases hs : p.stats with
        | none => simp [hskip, hp, hs]
        | some st => simp [hskip, hp, hs]

lemma aggStep_wins (puuid : String) (f : Option String) (acc : Agg)
    (m : MatchRecord) :
    (aggStep puuid f acc m).wins =
      acc.wins + (if winsPred puuid f m then 1 else 0) := by
  unfold aggStep winsPred countsMatch
  by_cases hskip : modeSkip f (modeOf m)
  · simp [hskip]
  · cases hp : playerOf puuid m with
    | none => simp [hskip, hp]
    | some p =>
        cases hs : p.stats with
        | none => simp [hskip, hp, hs]
        | some st =>
            have hw : wonOf puuid m =
                (List.find? (fun t => t.teamId == p.teamId)
                  (m.teams.getD [])).bind Team.won := by
              simp [wonOf, hp]
            by_cases hwin : (List.find? (fun t => t.teamId == p.teamId)
                (m.teams.getD [])).bind Team.won = some true
            · simp [hskip, hp, hs, hwin, hw]
            · simp [hskip, hp, hs, hwin, hw]

lemma aggStep_agent (puuid : String) (f : Option String) (acc : Agg)
    (m : MatchRecord) :
    sumVals (aggStep puuid f acc m).perAgent =
      sumVals acc.perAgent + (if countsMatch puuid f m then 1 else 0) := by
  unfold aggStep countsMatch
  by_cases hskip : modeSkip f (modeOf m)
  · simp [hskip]
  · cases hp : playerOf puuid m with
    | none => simp [hskip, hp]
    | some p =>
        cases hs : p.stats with
        | none => simp [hskip, hp, hs]
        | some st => simp [hskip, hp, hs, sumVals_bump]

lemma aggStep_map (puuid : String) (f : Option String) (acc : Agg)
    (m : MatchRecord) :
    sumVals (aggStep puuid f acc m).perMap =
      sumVals acc.perMap + (if countsMatch puuid f m then 1 else 0) := by
  unfold aggStep countsMatch
  by_cases hskip : modeSkip f (modeOf m)
  · simp [hskip]
  · cases hp : playerOf puuid m with
    | none => simp [hskip, hp]
    | some p =>
        cases hs : p.stats with
        | none => simp [hskip, hp, hs]
        | some st => simp [hskip, hp, hs, sumVals_bump]

lemma foldl_aggStep_total (puuid : String) (f : Option String)
    (l : List MatchRecord) : ∀ acc : Agg,
    (l.foldl (aggStep puuid f) acc).total =
      acc.total + l.countP (countsMatch puuid f) := by
  induction l with
  | nil => intro acc; simp
  | cons m l ih =>
      intro acc
      rw [List.foldl_cons, ih, aggStep_total, List.countP_cons]
      by_cases h : countsMatch puuid f m
      all_goals simp [h]
      all_goals omega

lemma foldl_aggStep_wins (puuid : String) (f : Option String)
    (l : List MatchRecord) : ∀ acc : Agg,
    (l.foldl (aggStep puuid f) acc).wins =
      acc.wins + l.countP (winsPred puuid f) := by
  induction l with
  | nil => intro acc; simp
  | cons m l ih =>
      intro acc
      rw [List.foldl_cons, ih, aggStep_wins, List.countP_cons]
      by_cases h : winsPred puuid f m
      all_goals simp [h]
      all_goals omega

lemma foldl_aggStep_agent (puuid : String) (f : Option String)
    (l : List MatchRecord) : ∀ acc : Agg,
    sumVals (l.foldl (aggStep puuid f) acc).perAgent =
      sumVals acc.perAgent + l.countP (countsMatch puuid f) := by
  induction l with
  | nil => intro acc; simp
  | cons m l ih =>
      intro acc
      rw [List.foldl_cons, ih, aggStep_agent, List.countP_cons]
      by_cases h : countsMatch puuid f m
      all_goals simp [h]
      all_goals omega

lemma foldl_aggStep_map (puuid : String) (f : Option String)
    (l : List MatchRecord) : ∀ acc : Agg,
    sumVals (l.foldl (aggStep puuid f) acc).perMap =
      sumVals acc.perMap + l.countP (countsMatch puuid f) := by
  induction l with
  | nil => intro acc; simp
  | cons m l ih =>
      intro acc
      rw [List.foldl_cons, ih, aggStep_map, List.countP_cons]
      by_cases h : countsMatch puuid f m
      all_goals simp [h]
      all_goals omega

lemma countP_le_of_imp {α : Type} (p q : α → Bool) (l : List α)
    (h : ∀ x, p x = true → q x = true) : l.countP p ≤ l.countP q := by
  induction l with
  | nil => simp
  | cons x l ih =>
      rw [List.countP_cons, List.countP_cons]
      by_cases hx : p x
      · have hq := h x hx
        simp only [hx, hq, if_pos]
        omega
      · by_cases hq : q x <;> simp [hx, hq] <;> omega

/-- Claim C6: whenever total deaths is zero the reported kill/death ratio
is the infinity sentinel (and, the embedding being total, no
division-by-zero fault occurs); whenever total deaths is positive the
reported ratio equals kills divided by deaths rounded to two decimal
places. -/
theorem kd_ratio_sentinel (puuid : String) (ms : List MatchRecord)
    (f : Option String) :
    ((aggregateRecentStats puuid ms f).d = 0 →
      (aggregateRecentStats puuid ms f).kd = KDisplay.inf) ∧
    (0 < (aggregateRecentStats puuid ms f).d →
      (aggregateRecentStats puuid ms f).kd =
        KDisplay.val (round2 (((aggregateRecentStats puuid ms f).k : ℚ) /
          ((aggregateRecentStats puuid ms f).d : ℚ)))) := by
  dsimp only [aggregateRecentStats]
  constructor
  · intro h
    rw [if_neg]
    omega
  · intro h
    rw [if_pos h]

/-- A single match record in which player p1 is found with stats 10/5/3 on
the winning Blue team. -/
def mBlueWin : MatchRecord :=
  ⟨some ⟨some "competitive", some "/Game/Maps/Ascent/Ascent"⟩,
   some [⟨"p1", some ⟨some 10, some 5, some 3⟩, some "Blue", some "agentA"⟩],
   some [⟨some "Blue", some true⟩]⟩

/-- Witness for C6: with no matches deaths is 0 and the sentinel is
reported; with one 10/5/3 match the rounded ratio is reported. -/
theorem kd_ratio_sentinel_witness :
    (aggregateRecentStats "p1" [] none).kd = KDisplay.inf ∧
    (aggregateRecentStats "p1" [mBlueWin] none).kd =
      KDisplay.val (round2 (((aggregateRecentStats "p1" [mBlueWin] none).k : ℚ) /
        ((aggregateRecentStats "p1" [mBlueWin] none).d : ℚ))) :=
  ⟨(kd_ratio_sentinel "p1" [] none).1 rfl,
   (kd_ratio_sentinel "p1" [mBlueWin] none).2 (by decide)⟩

/-- Claim C7: a match record whose player entry with stats is found but
whose team win flag cannot be resolved still increments the game count and
leaves the win count unchanged — it is counted as a loss, not excluded from
the denominator. -/
theorem aggregate_counts_unresolved_team_as_loss (puuid : String)
    (f : Option String) (pre post : List MatchRecord) (m : MatchRecord)
    (hc : countsMatch puuid f m = true) (hw : wonOf puuid m = none) :
    (aggregateRecentStats puuid (pre ++ m :: post) f).total =
      (aggregateRecentStats puuid (pre ++ post) f).total + 1 ∧
    (aggregateRecentStats puuid (pre ++ m :: post) f).wins =
      (aggregateRecentStats puuid (pre ++ post) f).wins := by
  have hwp : winsPred puuid f m = false := by
    unfold winsPred
    simp [hw]
  dsimp only [aggregateRecentStats]
  rw [foldl_aggStep_total, foldl_aggStep_total, foldl_aggStep_wins,
    foldl_aggStep_wins]
  constructor
  all_goals simp [List.countP_append, List.countP_cons, hc, hwp, initAgg]
  all_goals omega

/-- A single match record in which player p1 is found with stats but the
teams array is empty, so the win flag cannot be resolved. -/
def mUnresolved : MatchRecord :=
  ⟨some ⟨some "competitive", some "/Game/Maps/Ascent/Ascent"⟩,
   some [⟨"p1", some ⟨some 7, some 4, some 2⟩, some "Blue", some "agentA"⟩],
   some []⟩

/-- Witness for C7 at a concrete record with an unresolvable team. -/
theorem aggregate_counts_unresolved_team_as_loss_witness :
    (aggregateRecentStats "p1" ([] ++ mUnresolved :: []) none).total =
      (aggregateRecentStats "p1" ([] ++ []) none).total + 1 ∧
    (aggregateRecentStats "p1" ([] ++ mUnresolved :: []) none).wins =
      (aggregateRecentStats "p1" ([] ++ []) none).wins :=
  aggregate_counts_unresolved_team_as_loss "p1" none [] [] mUnresolved
    (by decide) (by decide)

/-- Claim C10: for every aggregation input, the win count never exceeds the
game count, and the per-agent and per-map tally values each sum exactly to
the game count (each counted record bumps exactly one agent key and one map
key). -/
theorem aggregate_invariants (puuid : String) (ms : List MatchRecord)
    (f : Option String) :
    (aggregateRecentStats puuid ms f).wins ≤
      (aggregateRecentStats puuid ms f).total ∧
    sumVals (aggregateRecentStats puuid ms f).perAgent =
      (aggregateRecentStats puuid ms f).total ∧
    sumVals (aggregateRecentStats puuid ms f).perMap =
      (aggregateRecentStats puuid ms f).total := by
  dsimp only [aggregateRecentStats]
  rw [foldl_aggStep_total, foldl_aggStep_wins, foldl_aggStep_agent,
    foldl_aggStep_map]
  refine ⟨?_, ?_, ?_⟩
  · have hle := countP_le_of_imp (winsPred puuid f) (countsMatch puuid f) ms
      (fun m hm => by
        unfold winsPred at hm
        exact (Bool.and_eq_true_iff.mp hm).1)
    simp only [initAgg]
    omega
  · simp [initAgg, sumVals]
  · simp [initAgg, sumVals]

end ValorantBot
